import Mathlib

/-!
Verification of the canned-answers service core against its design notes.

The Python source is shallowly embedded: strings are lists of characters,
Python floats are modelled as exact rationals, the relational store is a
finite map (exact-key cache) or a list of rows (fuzzy cache), and each
endpoint body becomes a pure function from store and inputs to result and
new store.
-/

/-- Python strings are modelled as lists of characters. -/
abbrev Str := List Char

/-- The ASCII whitespace characters recognised by Python's `str.split` and
by the regex class `\s`. -/
def isSpaceChar (c : Char) : Bool :=
  c = ' ' || c = '\t' || c = '\n' || c = '\r' || c = Char.ofNat 11 || c = Char.ofNat 12

/-- The ASCII characters kept by the regex class `\w` used in
`normalize_question`: alphanumerics and the underscore. -/
def isWordChar (c : Char) : Bool :=
  c.isAlphanum || c = '_'

/-- Python `question.lower()` from `normalize_question`. -/
def pyLower (s : Str) : Str := s.map Char.toLower

/-- Python `re.sub(r'[^\w\s]', '', text)` from `normalize_question`: keep only word
characters and whitespace. -/
def stripNonWord (s : Str) : Str :=
  s.filter (fun c => isWordChar c || isSpaceChar c)

/-- Worker for `text.split()`: accumulates the current word in reverse in
`acc`, emitting it whenever whitespace (or the end of input) is reached. -/
def splitWsAux : Str → Str → List Str
  | [], acc => if acc.isEmpty then [] else [acc.reverse]
  | c :: cs, acc =>
    if isSpaceChar c then
      if acc.isEmpty then splitWsAux cs [] else acc.reverse :: splitWsAux cs []
    else splitWsAux cs (c :: acc)

/-- Python `text.split()` (no separator argument): split on runs of whitespace,
discarding empty pieces. -/
def pySplitWs (s : Str) : List Str := splitWsAux s []

/-- Python `' '.join(words)`. -/
def joinSpace : List Str → Str
  | [] => []
  | [w] => w
  | w :: ws => w ++ ' ' :: joinSpace ws

/-- Function `normalize_question` from freeform_matching.py: lowercase, drop every
character matching `[^\w\s]`, then `' '.join(text.split())`. -/
def normalize_question (question : Str) : Str :=
  joinSpace (pySplitWs (stripNonWord (pyLower question)))

/-- Set `STOP_WORDS` from freeform_matching.py. -/
def STOP_WORDS : List Str :=
  ["the", "a", "an", "is", "are", "in", "this", "for",
   "of", "to", "and", "or"].map String.data

/-- Function `tokenize_question` from freeform_matching.py: split the normalized text
on whitespace and drop tokens belonging to `STOP_WORDS`. -/
def tokenize_question (normalized : Str) : List Str :=
  (pySplitWs normalized).filter (fun t => !(STOP_WORDS.contains t))

/-- Function `jaccard_similarity` from freeform_matching.py, with Python floats
modelled as exact rationals. -/
def jaccard_similarity (set_a set_b : Finset Str) : ℚ :=
  if set_a = ∅ ∧ set_b = ∅ then 0
  else
    let inter : ℕ := (set_a ∩ set_b).card
    let union : ℕ := (set_a ∪ set_b).card
    if 0 < union then (inter : ℚ) / (union : ℚ) else 0

/-- Function `compute_similarity` from freeform_matching.py: Jaccard similarity of the
token sets, with a 10% subset boost capped at 1.0 when the non-empty query
set is contained in the stored set. -/
def compute_similarity (query_tokens stored_tokens : List Str) : ℚ :=
  let query_set := query_tokens.toFinset
  let stored_set := stored_tokens.toFinset
  let base := jaccard_similarity query_set stored_set
  if query_set ≠ ∅ ∧ query_set ⊆ stored_set then
    min 1 (base + (1 - base) * (1 / 10))
  else base

/-- The loop of `find_best_match`: walks the candidates keeping the best
score seen so far and its owner, replacing only on a strict improvement. -/
def find_best_loop {α : Type} (query_tokens : List Str) :
    List (α × List Str) → Option α → ℚ → Option α × ℚ
  | [], best_match, best_score => (best_match, best_score)
  | (record, stored_tokens) :: rest, best_match, best_score =>
    let score := compute_similarity query_tokens stored_tokens
    if best_score < score then find_best_loop query_tokens rest (some record) score
    else find_best_loop query_tokens rest best_match best_score

/-- Function `find_best_match` from freeform_matching.py: the loop starts from no
match and best score 0.0, and the winner is returned when it exists and its
score is at least the threshold. -/
def find_best_match {α : Type} (query_tokens : List Str)
    (candidates : List (α × List Str)) (threshold : ℚ) : Option (α × ℚ) :=
  let r := find_best_loop query_tokens candidates none 0
  match r.1 with
  | some record => if threshold ≤ r.2 then some (record, r.2) else none
  | none => none

/-- The score a candidate pair gets against a query. -/
def scoreOf {α : Type} (query_tokens : List Str) (c : α × List Str) : ℚ :=
  compute_similarity query_tokens c.2

/-- The best (maximum) score over a candidate list, 0 for the empty list;
all scores are non-negative, so for a non-empty list this is the maximum. -/
def bestScore {α : Type} (query_tokens : List Str)
    (candidates : List (α × List Str)) : ℚ :=
  candidates.foldl (fun acc c => max acc (scoreOf query_tokens c)) 0

-- ## Basic bounds on the similarity engine

lemma jaccard_nonneg (a b : Finset Str) : 0 ≤ jaccard_similarity a b := by
  unfold jaccard_similarity
  split
  · exact le_refl 0
  · simp only
    split
    · positivity
    · exact le_refl 0

lemma jaccard_le_one (a b : Finset Str) : jaccard_similarity a b ≤ 1 := by
  unfold jaccard_similarity
  split
  · exact zero_le_one
  · simp only
    split
    · rename_i hu
      rw [div_le_one (by exact_mod_cast hu)]
      exact_mod_cast Finset.card_le_card
        ((Finset.inter_subset_left).trans Finset.subset_union_left)
    · exact zero_le_one

lemma compute_similarity_nonneg (q s : List Str) : 0 ≤ compute_similarity q s := by
  simp only [compute_similarity]
  split
  · refine le_min zero_le_one ?_
    have h0 := jaccard_nonneg q.toFinset s.toFinset
    have h1 := jaccard_le_one q.toFinset s.toFinset
    nlinarith
  · exact jaccard_nonneg _ _

lemma compute_similarity_le_one (q s : List Str) : compute_similarity q s ≤ 1 := by
  simp only [compute_similarity]
  split
  · exact min_le_left _ _
  · exact jaccard_le_one _ _

-- ## C5: the Jaccard similarity

/-- C5: `jaccard_similarity` is |A ∩ B| / |A ∪ B| with the both-empty case
defined as 0.0 (the division guard in the code is redundant: a non-empty
union has positive cardinality), it stays within [0,1], and on a single set
it is 1.0 when the set is non-empty and 0.0 on the empty set. -/
theorem jaccard_similarity_spec (a b : Finset Str) :
    jaccard_similarity a b =
      (if a = ∅ ∧ b = ∅ then 0 else ((a ∩ b).card : ℚ) / ((a ∪ b).card : ℚ)) ∧
    0 ≤ jaccard_similarity a b ∧ jaccard_similarity a b ≤ 1 ∧
    jaccard_similarity a a = (if a = ∅ then (0 : ℚ) else 1) := by
  refine ⟨?_, jaccard_nonneg a b, jaccard_le_one a b, ?_⟩
  · simp only [jaccard_similarity]
    split
    · rfl
    · rename_i hne
      have hu : (a ∪ b) ≠ ∅ := by
        intro h
        exact hne (Finset.union_eq_empty.mp h)
      have hpos : 0 < (a ∪ b).card := Finset.card_pos.mpr (Finset.nonempty_iff_ne_empty.mpr hu)
      simp [hpos]
  · by_cases ha : a = ∅
    · subst ha
      simp [jaccard_similarity]
    · have hpos : 0 < (a ∪ a).card :=
        Finset.card_pos.mpr (Finset.nonempty_iff_ne_empty.mpr (by simpa using ha))
      have hcard : ((a ∪ a).card : ℚ) ≠ 0 := by exact_mod_cast hpos.ne'
      simp only [jaccard_similarity, ha, and_self, if_false, if_neg, Finset.inter_self,
        Finset.union_self, hpos, if_true]
      simp only [Finset.union_self] at hcard
      simp [ha, div_self hcard]

-- ## C4: the similarity score with subset boost

/-- C4: `compute_similarity` is the Jaccard similarity of the two token
sets, except that a non-empty query set contained in the stored set gets the
boost `base + (1 - base) * 0.10` capped at 1.0; the score never drops below
the Jaccard base and never exceeds 1.0. -/
theorem compute_similarity_spec (query_tokens stored_tokens : List Str) :
    compute_similarity query_tokens stored_tokens =
      (if query_tokens.toFinset ≠ ∅ ∧ query_tokens.toFinset ⊆ stored_tokens.toFinset
       then min 1 (jaccard_similarity query_tokens.toFinset stored_tokens.toFinset +
         (1 - jaccard_similarity query_tokens.toFinset stored_tokens.toFinset) * (1 / 10))
       else jaccard_similarity query_tokens.toFinset stored_tokens.toFinset) ∧
    jaccard_similarity query_tokens.toFinset stored_tokens.toFinset ≤
      compute_similarity query_tokens stored_tokens ∧
    compute_similarity query_tokens stored_tokens ≤ 1 := by
  refine ⟨rfl, ?_, compute_similarity_le_one _ _⟩
  simp only [compute_similarity]
  split
  · refine le_min (jaccard_le_one _ _) ?_
    have h0 := jaccard_nonneg query_tokens.toFinset stored_tokens.toFinset
    have h1 := jaccard_le_one query_tokens.toFinset stored_tokens.toFinset
    nlinarith
  · exact le_refl _

-- ## The selector loop (`find_best_match`)

lemma find_best_loop_some_ne {α : Type} (q : List Str) :
    ∀ (cands : List (α × List Str)) (r : α) (bs : ℚ),
      (find_best_loop q cands (some r) bs).1 ≠ none := by
  intro cands
  induction cands with
  | nil => intro r bs; simp [find_best_loop]
  | cons c rest ih =>
    intro r bs
    obtain ⟨rec, toks⟩ := c
    simp only [find_best_loop]
    split
    · exact ih rec _
    · exact ih r bs

lemma find_best_loop_none_iff {α : Type} (q : List Str) :
    ∀ (cands : List (α × List Str)) (bs : ℚ),
      (find_best_loop q cands (none : Option α) bs).1 = none ↔
        ∀ c ∈ cands, compute_similarity q c.2 ≤ bs := by
  intro cands
  induction cands with
  | nil => intro bs; simp [find_best_loop]
  | cons c rest ih =>
    intro bs
    obtain ⟨rec, toks⟩ := c
    simp only [find_best_loop]
    split
    · rename_i hlt
      constructor
      · intro h
        exact absurd h (find_best_loop_some_ne q rest rec _)
      · intro h
        exact absurd (h (rec, toks) (List.mem_cons_self _ _)) (not_le.mpr hlt)
    · rename_i hnlt
      rw [ih bs]
      constructor
      · intro h c hc
        rcases List.mem_cons.mp hc with h1 | h1
        · subst h1; exact not_lt.mp hnlt
        · exact h c h1
      · intro h c hc
        exact h c (List.mem_cons_of_mem _ hc)

lemma find_best_loop_snd {α : Type} (q : List Str) :
    ∀ (cands : List (α × List Str)) (bm : Option α) (bs : ℚ),
      (find_best_loop q cands bm bs).2 =
        cands.foldl (fun acc c => max acc (scoreOf q c)) bs := by
  intro cands
  induction cands with
  | nil => intro bm bs; simp [find_best_loop]
  | cons c rest ih =>
    intro bm bs
    obtain ⟨rec, toks⟩ := c
    simp only [find_best_loop, List.foldl_cons]
    split
    · rename_i hlt
      rw [ih]
      congr 1
      exact (max_eq_right (le_of_lt hlt)).symm
    · rename_i hnlt
      rw [ih]
      congr 1
      exact (max_eq_left (not_lt.mp hnlt)).symm

lemma foldl_max_init_le {α : Type} (q : List Str) :
    ∀ (cands : List (α × List Str)) (bs : ℚ),
      bs ≤ cands.foldl (fun acc c => max acc (scoreOf q c)) bs := by
  intro cands
  induction cands with
  | nil => intro bs; simp
  | cons c rest ih =>
    intro bs
    simp only [List.foldl_cons]
    exact le_trans (le_max_left _ _) (ih _)

lemma foldl_max_mem_le {α : Type} (q : List Str) :
    ∀ (cands : List (α × List Str)) (bs : ℚ) (c : α × List Str), c ∈ cands →
      scoreOf q c ≤ cands.foldl (fun acc c => max acc (scoreOf q c)) bs := by
  intro cands
  induction cands with
  | nil => intro bs c hc; cases hc
  | cons hd rest ih =>
    intro bs c hc
    simp only [List.foldl_cons]
    rcases List.mem_cons.mp hc with h1 | h1
    · subst h1
      exact le_trans (le_max_right _ _) (foldl_max_init_le q rest _)
    · exact ih _ c h1

/-- The full characterization of the selector loop when it finds a winner:
either the incoming best survived (every candidate scored no higher), or some
candidate is the first to attain the final score, every earlier candidate
scoring strictly less and every later one no more. -/
lemma find_best_loop_some_spec {α : Type} (q : List Str) :
    ∀ (cands : List (α × List Str)) (bm : Option α) (bs : ℚ) (r : α) (s : ℚ),
      find_best_loop q cands bm bs = (some r, s) →
      (bm = some r ∧ s = bs ∧ ∀ c ∈ cands, compute_similarity q c.2 ≤ bs) ∨
      (∃ pre c post, cands = pre ++ c :: post ∧ c.1 = r ∧
        compute_similarity q c.2 = s ∧ bs < s ∧
        (∀ c2 ∈ pre, compute_similarity q c2.2 < s) ∧
        (∀ c2 ∈ post, compute_similarity q c2.2 ≤ s)) := by
  intro cands
  induction cands with
  | nil =>
    intro bm bs r s h
    simp only [find_best_loop, Prod.mk.injEq] at h
    obtain ⟨h1, h2⟩ := h
    left
    exact ⟨h1, h2.symm, by intro c hc; cases hc⟩
  | cons hd rest ih =>
    intro bm bs r s h
    obtain ⟨rec, toks⟩ := hd
    simp only [find_best_loop] at h
    by_cases hlt : bs < compute_similarity q toks
    · rw [if_pos hlt] at h
      rcases ih (some rec) (compute_similarity q toks) r s h with
        ⟨h1, h2, h3⟩ | ⟨pre, c, post, hsplit, hr, hs, hbs, hpre, hpost⟩
      · right
        refine ⟨[], (rec, toks), rest, by simp, Option.some.inj h1, h2.symm, ?_, ?_, ?_⟩
        · rw [h2]; exact hlt
        · intro c2 hc2; cases hc2
        · intro c2 hc2
          simpa [h2] using h3 c2 hc2
      · right
        refine ⟨(rec, toks) :: pre, c, post, by simp [hsplit], hr, hs, lt_trans hlt hbs, ?_, hpost⟩
        intro c2 hc2
        rcases List.mem_cons.mp hc2 with h1 | h1
        · subst h1; exact hbs
        · exact hpre c2 h1
    · rw [if_neg hlt] at h
      rcases ih bm bs r s h with
        ⟨h1, h2, h3⟩ | ⟨pre, c, post, hsplit, hr, hs, hbs, hpre, hpost⟩
      · left
        refine ⟨h1, h2, ?_⟩
        intro c hc
        rcases List.mem_cons.mp hc with h4 | h4
        · subst h4; exact not_lt.mp hlt
        · exact h3 c h4
      · right
        refine ⟨(rec, toks) :: pre, c, post, by simp [hsplit], hr, hs, hbs, ?_, hpost⟩
        intro c2 hc2
        rcases List.mem_cons.mp hc2 with h1 | h1
        · subst h1; exact lt_of_le_of_lt (not_lt.mp hlt) hbs
        · exact hpre c2 h1

/-- Unfolding lemma for `find_best_match` in terms of its loop. -/
lemma find_best_match_eq {α : Type} (q : List Str) (cands : List (α × List Str)) (t : ℚ) :
    find_best_match q cands t =
      (match (find_best_loop q cands none 0).1 with
       | some record =>
         if t ≤ (find_best_loop q cands none 0).2 then
           some (record, (find_best_loop q cands none 0).2)
         else none
       | none => none) := rfl

/-- What `find_best_match` actually guarantees: it returns NONE exactly when
every candidate scores 0 or every candidate scores below the threshold (so
also on an empty candidate list); a returned winner has a positive score at
or above the threshold, the score is the maximum over all candidates and is
returned unmodified, and the winner is the first candidate attaining it. -/
def SelectSpec {α : Type} (q : List Str) (cands : List (α × List Str)) (t : ℚ) : Prop :=
  (find_best_match q cands t = none ↔
    (∀ c ∈ cands, scoreOf q c = 0) ∨ (∀ c ∈ cands, scoreOf q c < t)) ∧
  (∀ r s, find_best_match q cands t = some (r, s) →
    t ≤ s ∧ 0 < s ∧ s = bestScore q cands ∧
    ∃ pre c post, cands = pre ++ c :: post ∧ c.1 = r ∧ scoreOf q c = s ∧
      (∀ c2 ∈ pre, scoreOf q c2 < s) ∧ (∀ c2 ∈ post, scoreOf q c2 ≤ s))

/-- C2 (amended): the behaviour of the selector for any threshold in
[0.0, 1.0]. -/
theorem find_best_match_spec {α : Type} (q : List Str) (cands : List (α × List Str))
    (t : ℚ) (ht0 : 0 ≤ t) (ht1 : t ≤ 1) : SelectSpec q cands t := by
  have hnn : ∀ c ∈ cands, 0 ≤ scoreOf q c := fun c _ => compute_similarity_nonneg q c.2
  rcases hP : (find_best_loop q cands none 0).1 with _ | r0
  · -- the loop kept no match: every score is ≤ 0, hence 0
    have hres : find_best_match q cands t = none := by
      rw [find_best_match_eq, hP]
    constructor
    · rw [hres]
      simp only [true_iff]
      left
      intro c hc
      exact le_antisymm ((find_best_loop_none_iff q cands 0).mp hP c hc) (hnn c hc)
    · intro r s hsome
      rw [hres] at hsome
      cases hsome
  · -- the loop found a winner r0 with score (loop).2
    have hpair : find_best_loop q cands none 0 =
        (some r0, (find_best_loop q cands none 0).2) := by
      rw [← hP]
    have hspec := find_best_loop_some_spec q cands none 0 r0
      (find_best_loop q cands none 0).2 hpair
    rcases hspec with ⟨hbad, _, _⟩ | ⟨pre, c, post, hsplit, hc1, hcs, hpos, hpre, hpost⟩
    · cases hbad
    have hmax : ∀ c2 ∈ cands, scoreOf q c2 ≤ (find_best_loop q cands none 0).2 := by
      intro c2 hc2
      rw [find_best_loop_snd q cands none 0]
      exact foldl_max_mem_le q cands 0 c2 hc2
    constructor
    · rw [find_best_match_eq, hP]
      simp only
      split
      · rename_i hle
        constructor
        · intro habs; cases habs
        · intro hor
          exfalso
          have hcmem : c ∈ cands := by rw [hsplit]; exact List.mem_append_right _ (List.mem_cons_self _ _)
          rcases hor with hall0 | halllt
          · have := hall0 c hcmem
            rw [scoreOf] at this
            rw [this] at hcs
            exact absurd hcs.symm (ne_of_gt hpos)
          · have := halllt c hcmem
            rw [scoreOf] at this
            rw [hcs] at this
            exact absurd hle (not_le.mpr this)
      · rename_i hnle
        constructor
        · intro _
          right
          intro c2 hc2
          exact lt_of_le_of_lt (hmax c2 hc2) (not_le.mp hnle)
        · intro _; rfl
    · intro r s hsome
      rw [find_best_match_eq, hP] at hsome
      simp only at hsome
      split at hsome
      · rename_i hle
        rw [Option.some.injEq, Prod.mk.injEq] at hsome
        obtain ⟨hr, hs⟩ := hsome
        subst hr
        subst hs
        refine ⟨hle, hpos, ?_, pre, c, post, hsplit, hc1, hcs, hpre, hpost⟩
        rw [find_best_loop_snd q cands none 0]
        rfl
      · cases hsome

/-- C2 (counterexample): at threshold 0.0 with one candidate whose score is
0.0, the best score is not strictly below the threshold and the candidate
list is non-empty, yet `find_best_match` returns NONE (the loop's strict `>`
against the initial best score 0.0 never selects a zero-scoring winner). -/
lemma score_x_y_eq_zero : compute_similarity [[ 'x' ]] [[ 'y' ]] = 0 := by
  have h3 : ¬ ([[ 'x' ]].toFinset ≠ ∅ ∧ [[ 'x' ]].toFinset ⊆ [[ 'y' ]].toFinset) := by
    decide
  have h1 : (([[ 'x' ]].toFinset ∩ [[ 'y' ]].toFinset).card) = 0 := by decide
  have h2 : (([[ 'x' ]].toFinset ∪ [[ 'y' ]].toFinset).card) = 2 := by decide
  have h4 : ¬ ([[ 'x' ]].toFinset = ∅ ∧ [[ 'y' ]].toFinset = ∅) := by decide
  simp only [compute_similarity, if_neg h3, jaccard_similarity, if_neg h4, h1, h2]
  norm_num

theorem find_best_match_zero_threshold_cex :
    ¬ (find_best_match [[ 'x' ]] [((0 : ℕ), [[ 'y' ]])] 0 = none ↔
        (([((0 : ℕ), [[ 'y' ]])] : List (ℕ × List Str)) = [] ∨
         bestScore [[ 'x' ]] [((0 : ℕ), [[ 'y' ]])] < 0)) := by
  have hnone : find_best_match [[ 'x' ]] [((0 : ℕ), [[ 'y' ]])] 0 = none := by
    simp [find_best_match, find_best_loop, score_x_y_eq_zero]
  have hbs : bestScore [[ 'x' ]] [((0 : ℕ), [[ 'y' ]])] = 0 := by
    simp [bestScore, scoreOf, score_x_y_eq_zero]
  intro hiff
  rcases hiff.mp hnone with h1 | h1
  · simp at h1
  · rw [hbs] at h1
    exact lt_irrefl 0 h1

/-- Witness for C2's amended theorem at a concrete input. -/
theorem find_best_match_spec_witness :
    (0 : ℚ) ≤ 1 / 2 ∧ (1 / 2 : ℚ) ≤ 1 ∧
      SelectSpec [[ 'x' ]] [((0 : ℕ), [[ 'x' ]])] (1 / 2) :=
  ⟨by norm_num, by norm_num,
    find_best_match_spec [[ 'x' ]] [((0 : ℕ), [[ 'x' ]])] (1 / 2)
      (by norm_num) (by norm_num)⟩

-- ## Normalization (C6)

/-- Strip trailing space characters (after collapsing, the only whitespace
left is `' '`). -/
def dropTrailingSpace (s : Str) : Str :=
  (s.reverse.dropWhile (fun c => c == ' ')).reverse

/-- Collapse every run of whitespace to a single `' '`; the flag records
whether the previous character was whitespace (true at the start, so leading
whitespace is dropped). -/
def collapseWsAux : Str → Bool → Str
  | [], _ => []
  | c :: cs, prevWs =>
    if isSpaceChar c then
      if prevWs then collapseWsAux cs true else ' ' :: collapseWsAux cs true
    else c :: collapseWsAux cs false

/-- The spec's wording "collapse runs of whitespace to single spaces; trim"
as a direct character-level pass. -/
def collapseTrim (s : Str) : Str := dropTrailingSpace (collapseWsAux s true)

/-- The claim's description of `normalize`: lowercase, remove every character
that is not alphanumeric or whitespace, collapse whitespace runs, trim. -/
def normalizeClaimed (q : Str) : Str :=
  collapseTrim ((q.map Char.toLower).filter (fun c => c.isAlphanum || isSpaceChar c))

/-- The amended description: the kept characters are those of the regex
class `\w` (alphanumeric or underscore) plus whitespace. -/
def normalizeAmended (q : Str) : Str :=
  collapseTrim ((q.map Char.toLower).filter (fun c => isWordChar c || isSpaceChar c))

lemma dropWhile_append_singleton (p : Char → Bool) (l : List Char) (c : Char) :
    List.dropWhile p (l ++ [c]) =
      if (List.dropWhile p l).isEmpty then List.dropWhile p [c]
      else List.dropWhile p l ++ [c] := by
  induction l with
  | nil => simp
  | cons a l ih =>
    by_cases hpa : p a = true
    · have e : List.dropWhile p (a :: l) = List.dropWhile p l := by
        rw [List.dropWhile_cons, if_pos hpa]
      rw [List.cons_append, List.dropWhile_cons, if_pos hpa, ih, e]
    · have e : List.dropWhile p (a :: l) = a :: l := by
        rw [List.dropWhile_cons, if_neg hpa]
      rw [List.cons_append, List.dropWhile_cons, if_neg hpa, e]
      simp

lemma dropTrailingSpace_cons (c : Char) (Y : Str) :
    dropTrailingSpace (c :: Y) =
      if c = ' ' ∧ dropTrailingSpace Y = [] then []
      else c :: dropTrailingSpace Y := by
  unfold dropTrailingSpace
  rw [List.reverse_cons, dropWhile_append_singleton]
  by_cases h : List.dropWhile (fun c => c == ' ') Y.reverse = []
  · rw [if_pos (by simp [h])]
    by_cases hc : c = ' '
    · subst hc
      rw [if_pos ⟨rfl, by simp [h]⟩]
      simp [List.dropWhile]
    · have hbeq : (c == ' ') = false := by simpa using hc
      rw [if_neg (fun hcon => hc hcon.1)]
      simp [List.dropWhile, hbeq, h]
  · rw [if_neg (by simpa using h)]
    have hY : ¬ (c = ' ' ∧ (List.dropWhile (fun c => c == ' ') Y.reverse).reverse = []) := by
      intro hcon
      exact h (by simpa using hcon.2)
    rw [if_neg hY]
    simp

lemma splitWsAux_words_ne_nil :
    ∀ (cs : Str) (acc : Str), ∀ w ∈ splitWsAux cs acc, w ≠ [] := by
  intro cs
  induction cs with
  | nil =>
    intro acc w hw
    simp only [splitWsAux] at hw
    split at hw
    · cases hw
    · rename_i hacc
      rw [List.mem_singleton] at hw
      subst hw
      simp only [ne_eq, List.reverse_eq_nil_iff]
      simpa [List.isEmpty_iff] using hacc
  | cons c cs ih =>
    intro acc w hw
    simp only [splitWsAux] at hw
    split at hw
    · split at hw
      · exact ih [] w hw
      · rename_i hacc
        rcases List.mem_cons.mp hw with h | h
        · subst h
          simp only [ne_eq, List.reverse_eq_nil_iff]
          simpa [List.isEmpty_iff] using hacc
        · exact ih [] w h
    · exact ih _ w hw

lemma joinSpace_ne_nil :
    ∀ (ws : List Str), (∀ w ∈ ws, w ≠ []) → ws ≠ [] → joinSpace ws ≠ [] := by
  intro ws h hne
  match ws with
  | [] => exact absurd rfl hne
  | [w] => simpa [joinSpace] using h w (List.mem_singleton_self w)
  | w :: w2 :: rest =>
    simp only [joinSpace, ne_eq, List.append_eq_nil]
    intro hcon
    exact absurd hcon.1 (h w (List.mem_cons_self _ _))

/-- The code's `' '.join(text.split())` coincides with the spec's "collapse
whitespace runs to single spaces and trim", both from the initial state and
from the middle of a word. -/
lemma joinSpace_splitWsAux :
    ∀ cs : Str,
      joinSpace (splitWsAux cs []) = dropTrailingSpace (collapseWsAux cs true) ∧
      ∀ (a : Char) (as : Str),
        joinSpace (splitWsAux cs (a :: as)) =
          (a :: as).reverse ++ dropTrailingSpace (collapseWsAux cs false) := by
  intro cs
  induction cs with
  | nil =>
    constructor
    · rfl
    · intro a as
      simp [splitWsAux, collapseWsAux, joinSpace, dropTrailingSpace]
  | cons c cs ih =>
    obtain ⟨ih0, ih1⟩ := ih
    by_cases hsp : isSpaceChar c = true
    · constructor
      · have e1 : splitWsAux (c :: cs) [] = splitWsAux cs [] := by
          simp [splitWsAux, hsp]
        have e2 : collapseWsAux (c :: cs) true = collapseWsAux cs true := by
          simp [collapseWsAux, hsp]
        rw [e1, e2]
        exact ih0
      · intro a as
        have e1 : splitWsAux (c :: cs) (a :: as) =
            (a :: as).reverse :: splitWsAux cs [] := by
          simp [splitWsAux, hsp]
        have e2 : collapseWsAux (c :: cs) false = ' ' :: collapseWsAux cs true := by
          simp [collapseWsAux, hsp]
        rw [e1, e2]
        rcases hsplit : splitWsAux cs [] with _ | ⟨w, ws⟩
        · have hX : dropTrailingSpace (collapseWsAux cs true) = [] := by
            rw [← ih0, hsplit]
            rfl
          rw [dropTrailingSpace_cons, if_pos ⟨rfl, hX⟩]
          simp [joinSpace]
        · have hX : dropTrailingSpace (collapseWsAux cs true) = joinSpace (w :: ws) := by
            rw [← ih0, hsplit]
          have hXne : joinSpace (w :: ws) ≠ [] := by
            apply joinSpace_ne_nil
            · intro w2 hw2
              exact splitWsAux_words_ne_nil cs [] w2 (hsplit ▸ hw2)
            · simp
          rw [dropTrailingSpace_cons, if_neg (fun hcon => hXne (hX ▸ hcon.2)), hX]
          simp [joinSpace]
    · have hcne : ¬ (c = ' ' ∧ dropTrailingSpace (collapseWsAux cs false) = []) := by
        intro hcon
        rw [hcon.1] at hsp
        simp [isSpaceChar] at hsp
      constructor
      · have e1 : splitWsAux (c :: cs) [] = splitWsAux cs [c] := by
          simp [splitWsAux, hsp]
        have e2 : collapseWsAux (c :: cs) true = c :: collapseWsAux cs false := by
          simp [collapseWsAux, hsp]
        rw [e1, e2, ih1 c [], dropTrailingSpace_cons, if_neg hcne]
        simp
      · intro a as
        have e1 : splitWsAux (c :: cs) (a :: as) = splitWsAux cs (c :: a :: as) := by
          simp [splitWsAux, hsp]
        have e2 : collapseWsAux (c :: cs) false = c :: collapseWsAux cs false := by
          simp [collapseWsAux, hsp]
        rw [e1, e2, ih1 c (a :: as), dropTrailingSpace_cons, if_neg hcne]
        simp

/-- C6 (counterexample): on the input "a_b" the code keeps the underscore
(the regex class `\w` includes it), while the claim's description — remove
every character that is not alphanumeric or whitespace — would delete it. -/
theorem normalize_underscore_cex :
    normalize_question ('a' :: '_' :: 'b' :: []) ≠
        normalizeClaimed ('a' :: '_' :: 'b' :: []) ∧
    normalize_question ('a' :: '_' :: 'b' :: []) = 'a' :: '_' :: 'b' :: [] ∧
    normalizeClaimed ('a' :: '_' :: 'b' :: []) = 'a' :: 'b' :: [] := by
  decide

/-- C6 (amended): `normalize_question` lowercases its input, removes every
character that is not alphanumeric, underscore or whitespace, collapses
whitespace runs to single spaces and trims; it is total by construction and
maps the empty string to the empty string. -/
theorem normalize_question_spec :
    (∀ q, normalize_question q = normalizeAmended q) ∧
    normalize_question [] = [] := by
  constructor
  · intro q
    unfold normalize_question normalizeAmended collapseTrim pySplitWs stripNonWord pyLower
    exact (joinSpace_splitWsAux ((q.map Char.toLower).filter
      (fun c => isWordChar c || isSpaceChar c))).1
  · rfl

-- ## The exact-key cache (app.py: /canned)

/-- The composite natural key of a canned answer (schemas.py `CannedKey`);
the date is kept as its string form. -/
structure CannedKey where
  date : Str
  pf_meeting_id : Int
  race_number : Int
  prompt_type : Str
deriving DecidableEq

/-- The request context `bump_usage` reads: the current UTC time and the
client IP and user agent extracted from the request headers. -/
structure RequestCtx where
  now : Nat
  client_ip : Str
  user_agent : Option Str
deriving DecidableEq

/-- A row of the `canned_answers` table (models.py `CannedAnswer`); the
usage metadata columns are nullable, and `use_count` is kept optional to
mirror the `(answer.use_count or 0)` guard in the code. -/
structure CannedAnswer where
  date : Str
  pf_meeting_id : Int
  race_number : Int
  prompt_type : Str
  prompt_text : Option Str
  raw_response : Str
  use_count : Option Int
  first_used_at : Option Nat
  first_used_ip : Option Str
  first_used_ua : Option Str
  last_used_at : Option Nat
  last_used_ip : Option Str
  last_used_ua : Option Str
deriving DecidableEq

/-- Request body of POST /canned (schemas.py `CannedAnswerIn`). -/
structure CannedAnswerIn where
  date : Str
  pf_meeting_id : Int
  race_number : Int
  prompt_type : Str
  prompt_text : Option Str
  raw_response : Str
deriving DecidableEq

/-- Response body of both /canned endpoints (schemas.py `CannedAnswerOut`). -/
structure CannedAnswerOut where
  date : Str
  pf_meeting_id : Int
  race_number : Int
  prompt_type : Str
  raw_response : Str
deriving DecidableEq

/-- The `canned_answers` table as a map from the unique natural key to the
row, mirroring the `uq_canned_key` constraint and the `filter_by(...)`
`.one_or_none()` lookups. -/
abbrev CannedStore := CannedKey → Option CannedAnswer

/-- The natural key of a stored row. -/
def keyOfAnswer (r : CannedAnswer) : CannedKey :=
  ⟨r.date, r.pf_meeting_id, r.race_number, r.prompt_type⟩

/-- The natural key of a create payload. -/
def keyOfIn (p : CannedAnswerIn) : CannedKey :=
  ⟨p.date, p.pf_meeting_id, p.race_number, p.prompt_type⟩

/-- Building the response from a row, as both endpoints do. -/
def outOfAnswer (r : CannedAnswer) : CannedAnswerOut :=
  ⟨r.date, r.pf_meeting_id, r.race_number, r.prompt_type, r.raw_response⟩

/-- Function `bump_usage` from app.py: add one to `use_count` (treating NULL as 0),
set the first-used metadata only when `first_used_at` is still NULL, and
always overwrite the last-used metadata. -/
def bump_usage (answer : CannedAnswer) (request : RequestCtx) : CannedAnswer :=
  { answer with
    use_count := some (answer.use_count.getD 0 + 1)
    first_used_at :=
      if answer.first_used_at = none then some request.now else answer.first_used_at
    first_used_ip :=
      if answer.first_used_at = none then some request.client_ip else answer.first_used_ip
    first_used_ua :=
      if answer.first_used_at = none then request.user_agent else answer.first_used_ua
    last_used_at := some request.now
    last_used_ip := some request.client_ip
    last_used_ua := request.user_agent }

/-- Endpoint `get_canned_answer` from app.py: a missing key is a 404 (modelled as
`none`); a present row is bumped, committed, and returned. -/
def get_canned_answer (db : CannedStore) (key : CannedKey) (request : RequestCtx) :
    Option CannedAnswerOut × CannedStore :=
  match db key with
  | none => (none, db)
  | some row =>
    let row2 := bump_usage row request
    (some (outOfAnswer row2), fun k => if k = key then some row2 else db k)

/-- Endpoint `create_canned_answer` from app.py: return the existing row untouched
when the key is taken, otherwise insert a fresh row with `use_count = 0`. -/
def create_canned_answer (db : CannedStore) (payload : CannedAnswerIn) :
    CannedAnswerOut × CannedStore :=
  match db (keyOfIn payload) with
  | some existing => (outOfAnswer existing, db)
  | none =>
    let row : CannedAnswer :=
      { date := payload.date
        pf_meeting_id := payload.pf_meeting_id
        race_number := payload.race_number
        prompt_type := payload.prompt_type
        prompt_text := payload.prompt_text
        raw_response := payload.raw_response
        use_count := some 0
        first_used_at := none
        first_used_ip := none
        first_used_ua := none
        last_used_at := none
        last_used_ip := none
        last_used_ua := none }
    (outOfAnswer row, fun k => if k = keyOfIn payload then some row else db k)

-- ## C1: idempotent first-write-wins create

/-- The fresh row `create_canned_answer` inserts for a payload. -/
def freshRow (p : CannedAnswerIn) : CannedAnswer :=
  { date := p.date
    pf_meeting_id := p.pf_meeting_id
    race_number := p.race_number
    prompt_type := p.prompt_type
    prompt_text := p.prompt_text
    raw_response := p.raw_response
    use_count := some 0
    first_used_at := none
    first_used_ip := none
    first_used_ua := none
    last_used_at := none
    last_used_ip := none
    last_used_ua := none }

lemma create_canned_answer_of_mem (db : CannedStore) (p : CannedAnswerIn)
    (e : CannedAnswer) (h : db (keyOfIn p) = some e) :
    create_canned_answer db p = (outOfAnswer e, db) := by
  unfold create_canned_answer
  rw [h]

lemma create_canned_answer_of_fresh (db : CannedStore) (p : CannedAnswerIn)
    (h : db (keyOfIn p) = none) :
    create_canned_answer db p =
      (outOfAnswer (freshRow p),
       fun k => if k = keyOfIn p then some (freshRow p) else db k) := by
  unfold create_canned_answer
  rw [h]
  rfl

/-- What two consecutive creates under the same key guarantee: identical
responses carrying the first payload's raw_response, no second mutation, and
a stored row that starts with use_count = 0. -/
def CreateTwiceSpec (db : CannedStore) (p1 p2 : CannedAnswerIn) : Prop :=
  (create_canned_answer (create_canned_answer db p1).2 p2).1 =
      (create_canned_answer db p1).1 ∧
  (create_canned_answer db p1).1.raw_response = p1.raw_response ∧
  (create_canned_answer (create_canned_answer db p1).2 p2).2 =
      (create_canned_answer db p1).2 ∧
  (∃ row, (create_canned_answer db p1).2 (keyOfIn p1) = some row ∧
    row.use_count = some 0 ∧ row.raw_response = p1.raw_response ∧
    outOfAnswer row = (create_canned_answer db p1).1)

/-- C1: `create_canned_answer` is idempotent with first-write-wins
semantics: starting from a store with no entry for the shared key, creating
with payload P1 and then with a different payload P2 returns the same entry
both times (carrying P1's raw_response), leaves the store untouched on the
second call, and the created row starts with use_count = 0. -/
theorem create_first_write_wins (db : CannedStore) (p1 p2 : CannedAnswerIn)
    (hkey : keyOfIn p2 = keyOfIn p1) (hfresh : db (keyOfIn p1) = none)
    (hne : p1 ≠ p2) : CreateTwiceSpec db p1 p2 := by
  have hc1 := create_canned_answer_of_fresh db p1 hfresh
  have hs1 : (create_canned_answer db p1).2 (keyOfIn p2) = some (freshRow p1) := by
    rw [hc1]
    simp [hkey]
  have hc2 := create_canned_answer_of_mem (create_canned_answer db p1).2 p2
    (freshRow p1) hs1
  unfold CreateTwiceSpec
  rw [hc2, hc1]
  refine ⟨rfl, rfl, rfl, freshRow p1, ?_, rfl, rfl, rfl⟩
  show (if keyOfIn p1 = keyOfIn p1 then some (freshRow p1) else db (keyOfIn p1)) =
    some (freshRow p1)
  rw [if_pos rfl]

/-- Witness for C1 at a concrete store and payloads. -/
theorem create_first_write_wins_witness :
    CreateTwiceSpec (fun _ => none)
      ⟨[ 'd' ], 1, 2, [ 't' ], none, [ 'A' ]⟩
      ⟨[ 'd' ], 1, 2, [ 't' ], none, [ 'B' ]⟩ :=
  create_first_write_wins (fun _ => none)
    ⟨[ 'd' ], 1, 2, [ 't' ], none, [ 'A' ]⟩
    ⟨[ 'd' ], 1, 2, [ 't' ], none, [ 'B' ]⟩
    rfl rfl (by decide)

-- ## C8: exact_get mutates only the usage fields

/-- What a successful read guarantees: the stored row is replaced by its
bumped version and no other key changes; the bump adds exactly 1 to
use_count (NULL read as 0), sets the first-used metadata only when
`first_used_at` was unset, always overwrites the last-used metadata, and
leaves the key fields, prompt_text and raw_response untouched. -/
def GetUsageSpec (db : CannedStore) (key : CannedKey) (request : RequestCtx)
    (row : CannedAnswer) : Prop :=
  (get_canned_answer db key request).2 key = some (bump_usage row request) ∧
  (∀ k, k ≠ key → (get_canned_answer db key request).2 k = db k) ∧
  (get_canned_answer db key request).1 = some (outOfAnswer (bump_usage row request)) ∧
  (bump_usage row request).use_count = some (row.use_count.getD 0 + 1) ∧
  (row.first_used_at = none →
    (bump_usage row request).first_used_at = some request.now ∧
    (bump_usage row request).first_used_ip = some request.client_ip ∧
    (bump_usage row request).first_used_ua = request.user_agent) ∧
  (row.first_used_at ≠ none →
    (bump_usage row request).first_used_at = row.first_used_at ∧
    (bump_usage row request).first_used_ip = row.first_used_ip ∧
    (bump_usage row request).first_used_ua = row.first_used_ua) ∧
  (bump_usage row request).last_used_at = some request.now ∧
  (bump_usage row request).last_used_ip = some request.client_ip ∧
  (bump_usage row request).last_used_ua = request.user_agent ∧
  (bump_usage row request).date = row.date ∧
  (bump_usage row request).pf_meeting_id = row.pf_meeting_id ∧
  (bump_usage row request).race_number = row.race_number ∧
  (bump_usage row request).prompt_type = row.prompt_type ∧
  (bump_usage row request).prompt_text = row.prompt_text ∧
  (bump_usage row request).raw_response = row.raw_response

/-- C8: a successful `get_canned_answer` of a present key bumps exactly the
usage fields of that row and changes nothing else. -/
theorem get_bumps_usage_only (db : CannedStore) (key : CannedKey)
    (request : RequestCtx) (row : CannedAnswer) (h : db key = some row) :
    GetUsageSpec db key request row := by
  have hget : get_canned_answer db key request =
      (some (outOfAnswer (bump_usage row request)),
       fun k => if k = key then some (bump_usage row request) else db k) := by
    unfold get_canned_answer
    rw [h]
  unfold GetUsageSpec
  rw [hget]
  refine ⟨?_, ?_, rfl, rfl, ?_, ?_, rfl, rfl, rfl, rfl, rfl, rfl, rfl, rfl, rfl⟩
  · show (if key = key then some (bump_usage row request) else db key) =
      some (bump_usage row request)
    rw [if_pos rfl]
  · intro k hk
    show (if k = key then some (bump_usage row request) else db k) = db k
    rw [if_neg hk]
  · intro hfirst
    unfold bump_usage
    rw [if_pos hfirst, if_pos hfirst, if_pos hfirst]
    exact ⟨rfl, rfl, rfl⟩
  · intro hfirst
    unfold bump_usage
    rw [if_neg hfirst, if_neg hfirst, if_neg hfirst]
    exact ⟨rfl, rfl, rfl⟩

/-- Witness for C8: a one-row store read with a concrete request context. -/
theorem get_bumps_usage_only_witness :
    GetUsageSpec
      (fun k => if k = ⟨[ 'd' ], 7, 1, [ 't' ]⟩ then
        some { date := [ 'd' ], pf_meeting_id := 7, race_number := 1,
               prompt_type := [ 't' ], prompt_text := none,
               raw_response := [ 'R' ], use_count := some 0,
               first_used_at := none, first_used_ip := none, first_used_ua := none,
               last_used_at := none, last_used_ip := none, last_used_ua := none }
        else none)
      ⟨[ 'd' ], 7, 1, [ 't' ]⟩
      ⟨5, [ 'i' ], some [ 'u' ]⟩
      { date := [ 'd' ], pf_meeting_id := 7, race_number := 1,
        prompt_type := [ 't' ], prompt_text := none,
        raw_response := [ 'R' ], use_count := some 0,
        first_used_at := none, first_used_ip := none, first_used_ua := none,
        last_used_at := none, last_used_ip := none, last_used_ua := none } :=
  get_bumps_usage_only _ _ _ _ (by decide)

-- ## The fuzzy cache (app.py: /freeform)

/-- The race scope of a freeform question: (date, pf_meeting_id,
race_number). -/
structure Scope where
  date : Str
  pf_meeting_id : Int
  race_number : Int
deriving DecidableEq

/-- A row of the `freeform_questions` table. The class itself is not part of
models.py as given; its fields are exactly those `create_freeform_question`
constructs, plus the primary key `id` every model here carries. The JSON
round-trip `json_to_tokens (tokens_to_json ts) = ts` is modelled by storing
the token list itself. -/
structure FreeformQuestion where
  id : Nat
  date : Str
  pf_meeting_id : Int
  race_number : Int
  question : Str
  question_normalized : Str
  question_tokens : List Str
  raw_response : Str
  use_count : Option Int
deriving DecidableEq

/-- Request body of POST /freeform (schemas.py `FreeformQuestionIn`). -/
structure FreeformQuestionIn where
  date : Str
  pf_meeting_id : Int
  race_number : Int
  question : Str
  raw_response : Str
deriving DecidableEq

/-- Response body of POST /freeform (schemas.py `FreeformQuestionOut`). -/
structure FreeformQuestionOut where
  date : Str
  pf_meeting_id : Int
  race_number : Int
  question : Str
  raw_response : Str
  use_count : Option Int
deriving DecidableEq

/-- The scope of a stored row. -/
def scopeOfQuestion (r : FreeformQuestion) : Scope :=
  ⟨r.date, r.pf_meeting_id, r.race_number⟩

/-- The scope of a submit payload. -/
def scopeOfIn (p : FreeformQuestionIn) : Scope :=
  ⟨p.date, p.pf_meeting_id, p.race_number⟩

/-- Building the POST /freeform response from a row. -/
def outOfQuestion (r : FreeformQuestion) : FreeformQuestionOut :=
  ⟨r.date, r.pf_meeting_id, r.race_number, r.question, r.raw_response, r.use_count⟩

/-- The `freeform_questions` table in creation order. -/
abbrev FreeformStore := List FreeformQuestion

/-- The `filter_by(date, pf_meeting_id, race_number, question_normalized)`
dedup predicate of `create_freeform_question`. -/
def matchesDup (p : FreeformQuestionIn) (normalized : Str) (r : FreeformQuestion) : Bool :=
  decide (scopeOfQuestion r = scopeOfIn p ∧ r.question_normalized = normalized)

/-- The fresh row `create_freeform_question` inserts. -/
def freshQuestion (nextId : Nat) (p : FreeformQuestionIn) : FreeformQuestion :=
  { id := nextId
    date := p.date
    pf_meeting_id := p.pf_meeting_id
    race_number := p.race_number
    question := p.question
    question_normalized := normalize_question p.question
    question_tokens := tokenize_question (normalize_question p.question)
    raw_response := p.raw_response
    use_count := some 0 }

/-- Endpoint `create_freeform_question` from app.py: normalize and tokenize, return
the existing row untouched when one in the same scope has the same
normalized question, otherwise append a fresh row with `use_count = 0`
(`nextId` models the database handing out the next primary key). -/
def create_freeform_question (db : FreeformStore) (nextId : Nat)
    (payload : FreeformQuestionIn) : FreeformQuestionOut × FreeformStore × Nat :=
  match db.find? (matchesDup payload (normalize_question payload.question)) with
  | some existing => (outOfQuestion existing, db, nextId)
  | none =>
    (outOfQuestion (freshQuestion nextId payload),
     db ++ [freshQuestion nextId payload], nextId + 1)

/-- The domain-level outcome of GET /freeform/match: HTTP 400 for a query
that tokenizes to nothing, HTTP 404 for no match, or the matched row's
question and raw_response with the rounded confidence. -/
inductive MatchOutcome where
  | invalidQuery
  | notFound
  | found (question : Str) (raw_response : Str) (confidence : ℚ)
deriving DecidableEq

/-- Python's `round(x, 4)` on the exact rational value: scale by 10^4 and
round half to even. -/
def round4 (x : ℚ) : ℚ :=
  let y := x * 10000
  let f : Int := Int.floor y
  let r : ℚ := y - (f : ℚ)
  let n : Int :=
    if r < 1 / 2 then f
    else if 1 / 2 < r then f + 1
    else if f % 2 = 0 then f else f + 1
  (n : ℚ) / 10000

/-- The scope filter of `match_freeform_question`. -/
def inScope (scope : Scope) (r : FreeformQuestion) : Bool :=
  decide (scopeOfQuestion r = scope)

/-- Endpoint `match_freeform_question` from app.py: tokenize the query (empty token
set is a 400), fetch the scope's candidates (none is a 404), run
`find_best_match` (no winner is a 404), and on a win bump the winner's
use_count and answer with the confidence rounded to 4 decimal places. -/
def match_freeform_question (db : FreeformStore) (question : Str) (scope : Scope)
    (threshold : ℚ) : MatchOutcome × FreeformStore :=
  let query_tokens := tokenize_question (normalize_question question)
  if query_tokens = [] then (.invalidQuery, db)
  else
    let candidates_db := db.filter (inScope scope)
    if candidates_db = [] then (.notFound, db)
    else
      match find_best_match query_tokens
        (candidates_db.map (fun row => (row, row.question_tokens))) threshold with
      | none => (.notFound, db)
      | some (best_row, confidence) =>
        (.found best_row.question best_row.raw_response (round4 confidence),
         db.map (fun r =>
           if r.id = best_row.id then
             { r with use_count := some (r.use_count.getD 0 + 1) }
           else r))

-- ## C7: INVALID_QUERY vs NOT_FOUND

/-- When the selector returns NONE, either every candidate scored 0 or every
candidate scored strictly below the threshold. -/
lemma find_best_match_none_cases {α : Type} (q : List Str)
    (cands : List (α × List Str)) (t : ℚ) (h : find_best_match q cands t = none) :
    (∀ c ∈ cands, compute_similarity q c.2 = 0) ∨
    (∀ c ∈ cands, compute_similarity q c.2 < t) := by
  rcases hP : (find_best_loop q cands none 0).1 with _ | r0
  · left
    intro c hc
    exact le_antisymm ((find_best_loop_none_iff q cands 0).mp hP c hc)
      (compute_similarity_nonneg q c.2)
  · right
    rw [find_best_match_eq, hP] at h
    simp only at h
    split at h
    · simp at h
    · rename_i hnle
      intro c hc
      calc compute_similarity q c.2 ≤ (find_best_loop q cands none 0).2 := by
            rw [find_best_loop_snd]
            exact foldl_max_mem_le q cands 0 c hc
        _ < t := not_le.mp hnle

/-- How the three outcomes of `match_freeform_question` are classified:
INVALID_QUERY exactly when the query tokenizes to nothing (whatever the
candidates), and NOT_FOUND only with a non-empty token set and either an
empty scope or no candidate with a positive score at or above the
threshold. -/
def MatchOutcomeSpec (db : FreeformStore) (question : Str) (scope : Scope)
    (t : ℚ) : Prop :=
  ((match_freeform_question db question scope t).1 = MatchOutcome.invalidQuery ↔
    tokenize_question (normalize_question question) = []) ∧
  ((match_freeform_question db question scope t).1 = MatchOutcome.notFound →
    tokenize_question (normalize_question question) ≠ [] ∧
    (db.filter (inScope scope) = [] ∨
      (∀ r ∈ db.filter (inScope scope),
        compute_similarity (tokenize_question (normalize_question question))
          r.question_tokens = 0) ∨
      (∀ r ∈ db.filter (inScope scope),
        compute_similarity (tokenize_question (normalize_question question))
          r.question_tokens < t)))

/-- C7 (amended): for every store, query text, scope and threshold, the
outcome classification above holds. -/
theorem match_outcomes_spec (db : FreeformStore) (question : Str) (scope : Scope)
    (t : ℚ) : MatchOutcomeSpec db question scope t := by
  unfold MatchOutcomeSpec
  by_cases htok : tokenize_question (normalize_question question) = []
  · have hres : (match_freeform_question db question scope t).1 =
        MatchOutcome.invalidQuery := by
      simp only [match_freeform_question]
      rw [if_pos htok]
    rw [hres]
    refine ⟨⟨fun _ => htok, fun _ => rfl⟩, ?_⟩
    intro hcon
    simp at hcon
  · by_cases hcand : db.filter (inScope scope) = []
    · have hres : (match_freeform_question db question scope t).1 =
          MatchOutcome.notFound := by
        simp only [match_freeform_question]
        rw [if_neg htok, if_pos hcand]
      rw [hres]
      refine ⟨iff_of_false (by simp) htok, fun _ => ⟨htok, Or.inl hcand⟩⟩
    · rcases hfb : find_best_match (tokenize_question (normalize_question question))
          ((db.filter (inScope scope)).map (fun row => (row, row.question_tokens))) t
          with _ | ⟨r, s⟩
      · have hres : (match_freeform_question db question scope t).1 =
            MatchOutcome.notFound := by
          simp only [match_freeform_question]
          rw [if_neg htok, if_neg hcand, hfb]
        rw [hres]
        refine ⟨iff_of_false (by simp) htok, fun _ => ⟨htok, ?_⟩⟩
        rcases find_best_match_none_cases _ _ _ hfb with hall | hall
        · refine Or.inr (Or.inl ?_)
          intro r hr
          exact hall (r, r.question_tokens) (List.mem_map_of_mem _ hr)
        · refine Or.inr (Or.inr ?_)
          intro r hr
          exact hall (r, r.question_tokens) (List.mem_map_of_mem _ hr)
      · have hres : (match_freeform_question db question scope t).1 =
            MatchOutcome.found r.question r.raw_response (round4 s) := by
          simp only [match_freeform_question]
          rw [if_neg htok, if_neg hcand, hfb]
        rw [hres]
        refine ⟨iff_of_false (by simp) htok, ?_⟩
        intro hcon
        simp at hcon

/-- A stored freeform row whose only token is "y". -/
def exRowY : FreeformQuestion :=
  ⟨0, [ 'd' ], 1, 1, [ 'y' ], [ 'y' ], [[ 'y' ]], [ 'R' ], some 0⟩

/-- The scope of `exRowY`. -/
def exScope : Scope := ⟨[ 'd' ], 1, 1⟩

/-- C7 (counterexample): with one in-scope candidate and threshold 0.0, the
query "x" yields NOT_FOUND even though the scope is non-empty and the
candidate's score (0.0) is not below the threshold — "no candidate reaches
the threshold" does not cover this outcome. -/
theorem match_notfound_zero_threshold_cex :
    (match_freeform_question [exRowY] [ 'x' ] exScope 0).1 = MatchOutcome.notFound ∧
    List.filter (inScope exScope) [exRowY] ≠ [] ∧
    ¬ (compute_similarity (tokenize_question (normalize_question [ 'x' ]))
        exRowY.question_tokens < 0) := by
  have htok : tokenize_question (normalize_question [ 'x' ]) = [[ 'x' ]] := rfl
  have htoks : exRowY.question_tokens = [[ 'y' ]] := rfl
  refine ⟨?_, by decide, ?_⟩
  · simp only [match_freeform_question]
    rw [if_neg (by decide)]
    rw [if_neg (show ¬ List.filter (inScope exScope) [exRowY] = [] by decide)]
    have hfb : find_best_match (tokenize_question (normalize_question [ 'x' ]))
        ((List.filter (inScope exScope) [exRowY]).map
          (fun row => (row, row.question_tokens))) 0 = none := by
      rw [htok, show List.filter (inScope exScope) [exRowY] = [exRowY] by decide]
      simp [find_best_match, find_best_loop, htoks, score_x_y_eq_zero]
    rw [hfb]
  · rw [htok, htoks, score_x_y_eq_zero]
    exact lt_irrefl 0

-- ## C9: at most one entry per (scope, normalized question)

/-- The dedup key of a stored row: its scope and normalized question. -/
def questionKey (r : FreeformQuestion) : Scope × Str :=
  (scopeOfQuestion r, r.question_normalized)

/-- The §3 invariant: within one scope, at most one row per
normalized-question value — the dedup keys are pairwise distinct. -/
def FreeformInv (db : FreeformStore) : Prop := (db.map questionKey).Nodup

/-- The states of the fuzzy cache reachable by the core operations, starting
from the empty table; `n` is the next free primary key. -/
inductive Reachable : FreeformStore → Nat → Prop where
  | init : Reachable [] 0
  | submit (db : FreeformStore) (n : Nat) (p : FreeformQuestionIn) :
      Reachable db n →
      Reachable (create_freeform_question db n p).2.1
        (create_freeform_question db n p).2.2
  | fuzzyMatch (db : FreeformStore) (n : Nat) (question : Str) (scope : Scope)
      (t : ℚ) :
      Reachable db n →
      Reachable (match_freeform_question db question scope t).2 n

lemma find?_append_of_none {α : Type} (p : α → Bool) :
    ∀ (l1 l2 : List α), l1.find? p = none → (l1 ++ l2).find? p = l2.find? p := by
  intro l1
  induction l1 with
  | nil => intro l2 _; rfl
  | cons a l ih =>
    intro l2 h
    by_cases hpa : p a = true
    · rw [List.find?_cons_of_pos _ hpa] at h
      cases h
    · rw [List.find?_cons_of_neg _ (by simpa using hpa)] at h
      rw [List.cons_append, List.find?_cons_of_neg _ (by simpa using hpa)]
      exact ih l2 h

lemma freeformInv_submit (db : FreeformStore) (n : Nat) (p : FreeformQuestionIn)
    (h : FreeformInv db) : FreeformInv (create_freeform_question db n p).2.1 := by
  unfold create_freeform_question
  rcases hf : db.find? (matchesDup p (normalize_question p.question)) with _ | e
  · simp only
    unfold FreeformInv
    rw [List.map_append, List.nodup_append]
    refine ⟨h, by simp, ?_⟩
    intro x hx hx2
    simp only [List.map_cons, List.map_nil, List.mem_singleton] at hx2
    subst hx2
    rcases List.mem_map.mp hx with ⟨r, hr, hkey⟩
    have hnone := List.find?_eq_none.mp hf r hr
    apply hnone
    unfold matchesDup
    rw [decide_eq_true_eq]
    have h1 : scopeOfQuestion r = scopeOfQuestion (freshQuestion n p) :=
      congrArg Prod.fst hkey
    have h2 : r.question_normalized = (freshQuestion n p).question_normalized :=
      congrArg Prod.snd hkey
    exact ⟨h1, h2⟩
  · simp only
    exact h

lemma freeformInv_match (db : FreeformStore) (question : Str) (scope : Scope)
    (t : ℚ) (h : FreeformInv db) :
    FreeformInv (match_freeform_question db question scope t).2 := by
  simp only [match_freeform_question]
  split
  · exact h
  · split
    · exact h
    · split
      · exact h
      · rename_i best_row confidence _
        unfold FreeformInv at h ⊢
        rw [List.map_map]
        have hcong : ∀ r : FreeformQuestion,
            (questionKey ∘ fun r =>
              if r.id = best_row.id then
                { r with use_count := some (r.use_count.getD 0 + 1) }
              else r) r = questionKey r := by
          intro r
          simp only [Function.comp]
          split
          · rfl
          · rfl
        rw [List.map_congr_left (fun r _ => hcong r)]
        exact h

/-- Every reachable state of the fuzzy cache satisfies the §3 invariant. -/
lemma reachable_freeformInv : ∀ (db : FreeformStore) (n : Nat),
    Reachable db n → FreeformInv db := by
  intro db n h
  induction h with
  | init => simp [FreeformInv]
  | submit db n p _ ih => exact freeformInv_submit db n p ih
  | fuzzyMatch db n q sc t _ ih => exact freeformInv_match db q sc t ih

/-- What the double-submit scenario guarantees: the first call appends one
fresh row with use_count = 0, the second call changes nothing (same store,
same next id) and returns the first call's entry. -/
def SubmitTwiceSpec (db : FreeformStore) (n : Nat)
    (p1 p2 : FreeformQuestionIn) : Prop :=
  (create_freeform_question (create_freeform_question db n p1).2.1
      (create_freeform_question db n p1).2.2 p2).2.1 =
    (create_freeform_question db n p1).2.1 ∧
  (create_freeform_question (create_freeform_question db n p1).2.1
      (create_freeform_question db n p1).2.2 p2).2.2 =
    (create_freeform_question db n p1).2.2 ∧
  (create_freeform_question (create_freeform_question db n p1).2.1
      (create_freeform_question db n p1).2.2 p2).1 =
    (create_freeform_question db n p1).1 ∧
  (create_freeform_question db n p1).1.use_count = some 0 ∧
  (create_freeform_question db n p1).2.1 = db ++ [freshQuestion n p1]

/-- C9: in every reachable state each scope holds at most one row per
normalized-question value, and submitting the same scope and
equal-normalized question twice (fresh in the store) creates exactly one
row: the second call returns the first entry unchanged with use_count 0,
and the invariant still holds afterwards. -/
theorem freeform_scope_unique (db : FreeformStore) (n : Nat)
    (p1 p2 : FreeformQuestionIn) (hreach : Reachable db n)
    (hscope : scopeOfIn p2 = scopeOfIn p1)
    (hnorm : normalize_question p2.question = normalize_question p1.question)
    (hfresh : db.find? (matchesDup p1 (normalize_question p1.question)) = none) :
    FreeformInv db ∧ SubmitTwiceSpec db n p1 p2 ∧
    FreeformInv (create_freeform_question (create_freeform_question db n p1).2.1
      (create_freeform_question db n p1).2.2 p2).2.1 := by
  have hinv : FreeformInv db := reachable_freeformInv db n hreach
  have hc1 : create_freeform_question db n p1 =
      (outOfQuestion (freshQuestion n p1), db ++ [freshQuestion n p1], n + 1) := by
    unfold create_freeform_question
    rw [hfresh]
  have hpred : matchesDup p2 (normalize_question p2.question) =
      matchesDup p1 (normalize_question p1.question) := by
    funext r
    unfold matchesDup
    rw [hscope, hnorm]
  have hhit : matchesDup p1 (normalize_question p1.question)
      (freshQuestion n p1) = true := by
    unfold matchesDup
    rw [decide_eq_true_eq]
    exact ⟨rfl, rfl⟩
  have hfind : (db ++ [freshQuestion n p1]).find?
      (matchesDup p2 (normalize_question p2.question)) =
      some (freshQuestion n p1) := by
    rw [hpred, find?_append_of_none _ db _ hfresh, List.find?_cons_of_pos _ hhit]
  have hc2 : create_freeform_question (db ++ [freshQuestion n p1]) (n + 1) p2 =
      (outOfQuestion (freshQuestion n p1), db ++ [freshQuestion n p1], n + 1) := by
    unfold create_freeform_question
    rw [hfind]
  refine ⟨hinv, ⟨?_, ?_, ?_, ?_, ?_⟩, ?_⟩
  · rw [hc1]
    show (create_freeform_question (db ++ [freshQuestion n p1]) (n + 1) p2).2.1 =
      db ++ [freshQuestion n p1]
    rw [hc2]
  · rw [hc1]
    show (create_freeform_question (db ++ [freshQuestion n p1]) (n + 1) p2).2.2 = n + 1
    rw [hc2]
  · rw [hc1]
    show (create_freeform_question (db ++ [freshQuestion n p1]) (n + 1) p2).1 =
      outOfQuestion (freshQuestion n p1)
    rw [hc2]
  · rw [hc1]
    rfl
  · rw [hc1]
  · rw [hc1]
    show FreeformInv
      (create_freeform_question (db ++ [freshQuestion n p1]) (n + 1) p2).2.1
    rw [hc2]
    show FreeformInv (db ++ [freshQuestion n p1])
    have := freeformInv_submit db n p1 hinv
    rw [hc1] at this
    exact this

/-- First submit payload of the C9 witness: question "Hi!". -/
def exSubmitA : FreeformQuestionIn :=
  ⟨[ 'd' ], 1, 1, [ 'H', 'i', '!' ], [ 'R' ]⟩

/-- Second submit payload of the C9 witness: question "hi", differing from
"Hi!" only in case and punctuation. -/
def exSubmitB : FreeformQuestionIn :=
  ⟨[ 'd' ], 1, 1, [ 'h', 'i' ], [ 'R' ]⟩

/-- Witness for C9 from the empty store. -/
theorem freeform_scope_unique_witness :
    FreeformInv [] ∧ SubmitTwiceSpec [] 0 exSubmitA exSubmitB ∧
    FreeformInv (create_freeform_question (create_freeform_question [] 0 exSubmitA).2.1
      (create_freeform_question [] 0 exSubmitA).2.2 exSubmitB).2.1 :=
  freeform_scope_unique [] 0 exSubmitA exSubmitB Reachable.init rfl (by decide) rfl

-- ## C10: the returned confidence is rounded to 4 decimal places

/-- C10: whenever the fuzzy match succeeds, the confidence handed back is
the selector's raw winning score passed through `round(., 4)`. -/
theorem match_confidence_rounded (db : FreeformStore) (question : Str)
    (scope : Scope) (t : ℚ) (r : FreeformQuestion) (s : ℚ)
    (htok : tokenize_question (normalize_question question) ≠ [])
    (hfb : find_best_match (tokenize_question (normalize_question question))
      ((db.filter (inScope scope)).map (fun row => (row, row.question_tokens))) t =
      some (r, s)) :
    (match_freeform_question db question scope t).1 =
      MatchOutcome.found r.question r.raw_response (round4 s) := by
  have hcand : ¬ db.filter (inScope scope) = [] := by
    intro hnil
    rw [hnil] at hfb
    simp [find_best_match, find_best_loop] at hfb
  simp only [match_freeform_question]
  rw [if_neg htok, if_neg hcand, hfb]

/-- Python's round(1/3, 4). -/
lemma round4_one_third : round4 (1 / 3) = 3333 / 10000 := by
  have hy : (1 / 3 : ℚ) * 10000 = 10000 / 3 := by norm_num
  have hf : Int.floor ((10000 : ℚ) / 3) = 3333 := by
    apply Int.floor_eq_iff.mpr
    constructor <;> norm_num
  simp only [round4, hy, hf]
  norm_num

/-- A stored freeform row with tokens {b, c} in scope (d, 2, 2). -/
def exRowBC : FreeformQuestion :=
  ⟨0, [ 'd' ], 2, 2, [ 'b', ' ', 'c' ], [ 'b', ' ', 'c' ],
   [[ 'b' ], [ 'c' ]], [ 'R' ], some 0⟩

/-- The scope of `exRowBC`. -/
def exScopeW : Scope := ⟨[ 'd' ], 2, 2⟩

lemma score_bz_bc : compute_similarity [[ 'b' ], [ 'z' ]] [[ 'b' ], [ 'c' ]] = 1 / 3 := by
  have h3 : ¬ ([[ 'b' ], [ 'z' ]].toFinset ≠ ∅ ∧
      [[ 'b' ], [ 'z' ]].toFinset ⊆ [[ 'b' ], [ 'c' ]].toFinset) := by decide
  have h1 : (([[ 'b' ], [ 'z' ]].toFinset ∩ [[ 'b' ], [ 'c' ]].toFinset).card) = 1 := by
    decide
  have h2 : (([[ 'b' ], [ 'z' ]].toFinset ∪ [[ 'b' ], [ 'c' ]].toFinset).card) = 3 := by
    decide
  have h4 : ¬ ([[ 'b' ], [ 'z' ]].toFinset = ∅ ∧ [[ 'b' ], [ 'c' ]].toFinset = ∅) := by
    decide
  simp only [compute_similarity, if_neg h3, jaccard_similarity, if_neg h4, h1, h2]
  norm_num

lemma exRowBC_best :
    find_best_match (tokenize_question (normalize_question [ 'b', ' ', 'z' ]))
      ((List.filter (inScope exScopeW) [exRowBC]).map
        (fun row => (row, row.question_tokens))) (1 / 4) =
      some (exRowBC, 1 / 3) := by
  have hfl : (List.filter (inScope exScopeW) [exRowBC]).map
      (fun row => (row, row.question_tokens)) = [(exRowBC, [[ 'b' ], [ 'c' ]])] := rfl
  have htk : tokenize_question (normalize_question [ 'b', ' ', 'z' ]) =
      [[ 'b' ], [ 'z' ]] := rfl
  rw [hfl, htk]
  simp only [find_best_match, find_best_loop, score_bz_bc]
  rw [if_pos (by norm_num : (0 : ℚ) < 1 / 3)]
  simp only [find_best_loop]
  rw [if_pos (by norm_num : (1 / 4 : ℚ) ≤ 1 / 3)]

/-- Witness for C10: a concrete match whose raw score 1/3 is returned as
0.3333, which differs from the raw score. -/
theorem match_confidence_rounded_witness :
    (match_freeform_question [exRowBC] [ 'b', ' ', 'z' ] exScopeW (1 / 4)).1 =
      MatchOutcome.found exRowBC.question exRowBC.raw_response (round4 (1 / 3)) ∧
    round4 (1 / 3) ≠ 1 / 3 :=
  ⟨match_confidence_rounded [exRowBC] [ 'b', ' ', 'z' ] exScopeW (1 / 4) exRowBC
      (1 / 3) (by decide) exRowBC_best,
   by rw [round4_one_third]; norm_num⟩

-- ## C3: scenario 3 ("Who is the best value play?")

/-- The query text of scenario 3. -/
def q3 : Str := "Who is the best value play?".data

/-- The stored question text of scenario 3. -/
def s3 : Str := "What is the best value play in this race?".data

/-- The scope of scenario 3. -/
def scope3 : Scope := ⟨"2025-11-29".data, 501, 3⟩

/-- The stored row of scenario 3, as `create_freeform_question` would build
it. -/
def row3 : FreeformQuestion :=
  ⟨1, "2025-11-29".data, 501, 3, s3, normalize_question s3,
   tokenize_question (normalize_question s3), "resp".data, some 0⟩

lemma tokens_q3 : tokenize_question (normalize_question q3) =
    ["who", "best", "value", "play"].map String.data := by decide

lemma tokens_s3 : tokenize_question (normalize_question s3) =
    ["what", "best", "value", "play", "race"].map String.data := by decide

lemma score_q3_s3 : compute_similarity (tokenize_question (normalize_question q3))
    (tokenize_question (normalize_question s3)) = 1 / 2 := by
  rw [tokens_q3, tokens_s3]
  have h3 : ¬ ((["who", "best", "value", "play"].map String.data).toFinset ≠ ∅ ∧
      (["who", "best", "value", "play"].map String.data).toFinset ⊆
        (["what", "best", "value", "play", "race"].map String.data).toFinset) := by
    decide
  have h1 : (((["who", "best", "value", "play"].map String.data).toFinset ∩
      (["what", "best", "value", "play", "race"].map String.data).toFinset).card) = 3 := by
    decide
  have h2 : (((["who", "best", "value", "play"].map String.data).toFinset ∪
      (["what", "best", "value", "play", "race"].map String.data).toFinset).card) = 6 := by
    decide
  have h4 : ¬ ((["who", "best", "value", "play"].map String.data).toFinset = ∅ ∧
      (["what", "best", "value", "play", "race"].map String.data).toFinset = ∅) := by
    decide
  simp only [compute_similarity, if_neg h3, jaccard_similarity, if_neg h4, h1, h2]
  norm_num

lemma find_best_match_row3 (t : ℚ) :
    find_best_match (tokenize_question (normalize_question q3))
      ((List.filter (inScope scope3) [row3]).map
        (fun row => (row, row.question_tokens))) t =
      (if t ≤ 1 / 2 then some (row3, 1 / 2) else none) := by
  have hfl : (List.filter (inScope scope3) [row3]).map
      (fun row => (row, row.question_tokens)) =
      [(row3, tokenize_question (normalize_question s3))] := rfl
  rw [hfl]
  simp only [find_best_match, find_best_loop, score_q3_s3]
  rw [if_pos (by norm_num : (0 : ℚ) < 1 / 2)]

lemma match_row3 (t : ℚ) (h : ¬ t ≤ 1 / 2) :
    (match_freeform_question [row3] q3 scope3 t).1 = MatchOutcome.notFound := by
  simp only [match_freeform_question]
  rw [if_neg (by decide : ¬ tokenize_question (normalize_question q3) = []),
    if_neg (by decide : ¬ List.filter (inScope scope3) [row3] = []),
    find_best_match_row3 t, if_neg h]

/-- C3 (counterexample): "who" is not in `STOP_WORDS`, so the query's token
set is not the claimed {best, value, play}; the similarity against the
stored question is 1/2, not 0.64; and at threshold 0.60 the match is
NOT_FOUND rather than a hit with confidence 0.64. -/
theorem scenario3_cex :
    (tokenize_question (normalize_question q3)).toFinset ≠
      (["best", "value", "play"].map String.data).toFinset ∧
    compute_similarity (tokenize_question (normalize_question q3))
      (tokenize_question (normalize_question s3)) ≠ 16 / 25 ∧
    (match_freeform_question [row3] q3 scope3 (3 / 5)).1 ≠
      MatchOutcome.found row3.question row3.raw_response (16 / 25) := by
  refine ⟨by decide, ?_, ?_⟩
  · rw [score_q3_s3]
    norm_num
  · rw [match_row3 (3 / 5) (by norm_num)]
    simp

/-- C3 (amended): the query tokenizes to {who, best, value, play} ("who" is
not a stop word) and the stored question to {what, best, value, play, race};
the query set is not contained in the stored set, so no boost applies; the
similarity is 3/6 = 0.5; and the match returns NOT_FOUND at threshold 0.70
and also at threshold 0.60. -/
theorem scenario3_actual :
    tokenize_question (normalize_question q3) =
      ["who", "best", "value", "play"].map String.data ∧
    tokenize_question (normalize_question s3) =
      ["what", "best", "value", "play", "race"].map String.data ∧
    ¬ ((tokenize_question (normalize_question q3)).toFinset ⊆
        (tokenize_question (normalize_question s3)).toFinset) ∧
    compute_similarity (tokenize_question (normalize_question q3))
      (tokenize_question (normalize_question s3)) = 1 / 2 ∧
    (match_freeform_question [row3] q3 scope3 (7 / 10)).1 = MatchOutcome.notFound ∧
    (match_freeform_question [row3] q3 scope3 (3 / 5)).1 = MatchOutcome.notFound :=
  ⟨tokens_q3, tokens_s3, by decide, score_q3_s3,
   match_row3 (7 / 10) (by norm_num), match_row3 (3 / 5) (by norm_num)⟩
